import Mathlib

/-!
Verification of the HiBuddy schedule/time-slot engine.

This file gives a shallow embedding, in Lean 4, of the core schedule logic
of the HiBuddy repository and proves the stated properties about it:

* `utils/runtime.py` : `parse_hhmm_to_time`, `find_active_item`,
  `annotate_schedule_with_status`;
* the coordinator page (`pages/1_...py`) : `_apply_type_guardrails`,
  `_extract_menu_names_from_task`, `_auto_attach_cooking_candidates`;
* the user page (`pages/2_...py`) : `_make_slot_key`, `_auto_tts_logic`,
  and the task-display transform of `user_page`.

Python dictionaries become Lean structures, Python `datetime.time` values
become `Tod` (hour/minute/second), Python exceptions become `Option`, and
the session state mutated by `_auto_tts_logic` is threaded explicitly.
Object identity (`id(...)`) of list elements is modelled by pairing each
element with its list index (`List.enum`), which distinguishes equal
dictionaries at different positions exactly as CPython `id` does.
-/

/-! ## Time-of-day values

`Tod` models Python `datetime.time` at second granularity (microseconds of
the wall clock are dropped; no comparison in the embedded code depends on
sub-second resolution).  Comparison is lexicographic, as in Python. -/

structure Tod where
  hour : Nat
  minute : Nat
  second : Nat
deriving DecidableEq, Repr

def Tod.le (a b : Tod) : Bool :=
  decide (a.hour < b.hour ∨ (a.hour = b.hour ∧
    (a.minute < b.minute ∨ (a.minute = b.minute ∧ a.second ≤ b.second))))

def Tod.lt (a b : Tod) : Bool :=
  decide (a.hour < b.hour ∨ (a.hour = b.hour ∧
    (a.minute < b.minute ∨ (a.minute = b.minute ∧ a.second < b.second))))

/-! ## Python `str.strip()` and `int()`

`pyStripL` models Python `str.strip()` (remove leading/trailing ASCII
whitespace; the strings handled by this program contain no exotic Unicode
whitespace).  `pyInt?` models `int(s)` on a string: surrounding whitespace
is ignored, an optional single sign is allowed, then decimal digits with
single underscores permitted between digits (PEP 515); anything else
raises, modelled as `none`. -/

def wsChar (c : Char) : Bool :=
  c = ' ' || c = '\t' || c = '\n' || c = '\r' || c = '\x0b' || c = '\x0c'

def pyStripL (cs : List Char) : List Char :=
  ((cs.dropWhile wsChar).reverse.dropWhile wsChar).reverse

def pyStrip (s : String) : String :=
  String.mk (pyStripL s.toList)

def digitVal (c : Char) : Nat := c.toNat - 48

def pyDigits : List Char → Nat → Option Nat
  | [], acc => some acc
  | '_' :: c :: rest, acc =>
      if c.isDigit then pyDigits rest (acc * 10 + digitVal c) else none
  | c :: rest, acc =>
      if c.isDigit then pyDigits rest (acc * 10 + digitVal c) else none

def pyNat? : List Char → Option Nat
  | c :: rest => if c.isDigit then pyDigits rest (digitVal c) else none
  | [] => none

def pyIntL? (cs : List Char) : Option Int :=
  match pyStripL cs with
  | '+' :: rest => (pyNat? rest).map Int.ofNat
  | '-' :: rest => (pyNat? rest).map (fun n => -(n : Int))
  | ds => (pyNat? ds).map Int.ofNat

/-- Python `s.split(sep)` for a one-character separator `sep`, on the
character list of `s` (`acc` is the reversed current fragment).  E.g.
`"a:b" ↦ ["a","b"]`, `"" ↦ [""]`, `":" ↦ ["",""]`, as in Python. -/
def splitChar (sep : Char) : List Char → List Char → List (List Char)
  | [], acc => [acc.reverse]
  | c :: rest, acc =>
      if c = sep then acc.reverse :: splitChar sep rest []
      else splitChar sep rest (c :: acc)

/-- Python `datetime.time(h, m)`: raises unless `0 ≤ h ≤ 23` and
`0 ≤ m ≤ 59`; modelled as `none` on failure. -/
def timeCtor? (h m : Int) : Option Tod :=
  if 0 ≤ h ∧ h ≤ 23 ∧ 0 ≤ m ∧ m ≤ 59 then some ⟨h.toNat, m.toNat, 0⟩ else none

/-- The body of `parse_hhmm_to_time` inside its `try`: `hh, mm =
hhmm.split(":")` (exactly two parts or `ValueError`), then
`time(int(hh), int(mm))`.  `none` models the raised exception. -/
def parse_hhmm_core (s : String) : Option Tod :=
  match splitChar ':' s.toList [] with
  | [hh, mm] => do
      let h ← pyIntL? hh
      let m ← pyIntL? mm
      timeCtor? h m
  | _ => none

/-- `utils/runtime.py::parse_hhmm_to_time` on a string argument: any
failure is caught and `time(0, 0)` is returned. -/
def parse_hhmm_to_time (s : String) : Tod :=
  (parse_hhmm_core s).getD ⟨0, 0, 0⟩

/-- `parse_hhmm_to_time` including the `isinstance(hhmm, str)` guard:
a non-string argument (e.g. `None`), modelled as `Option.none`, yields
`time(0, 0)`. -/
def parse_hhmm_py : Option String → Tod
  | some s => parse_hhmm_to_time s
  | none => ⟨0, 0, 0⟩

/-- Zero-padded two-digit rendering of an hour/minute value. -/
def fmt2 (n : Nat) : String :=
  if n < 10 then "0" ++ toString n else toString n

/-! ## The slot data model

A `Slot` models one schedule dictionary of the JSON document
(`{"id", "time", "type", "task", "guide_script", "menus", "video_url"}`,
§6 of the document shape).  A `Menu` models one element of `menus`.
Fields absent from a Python dict default to `""`/`[]` at every `get`
site in the source, so they are modelled as always-present fields. -/

structure Menu where
  name : String
  image : String
  video_url : String
deriving DecidableEq, Repr

structure Slot where
  id : String
  time : String
  type : String
  task : String
  guide_script : List String
  menus : List Menu
  video_url : String
deriving DecidableEq, Repr

/-- `parse_hhmm_to_time(item.get("time", "00:00"))`. -/
def ptimeOf (s : Slot) : Tod := parse_hhmm_to_time s.time

/-! ## The slot-activation engine (`utils/runtime.py`)

`find_active_item` sorts a copy of the schedule by parsed start time with
Python's `sorted`, which is the (unique) stable ascending sort by key;
it is modelled by stable insertion sort, which computes the same list.
The engine is developed generically in the element type so that the same
code also runs on index-tagged slots (`Nat × Slot`), which is how CPython
object identity (`id(...)`) in `annotate_schedule_with_status` is
modelled. -/

section CoreEngine

variable {α : Type}

/-- The sort key order `parse_hhmm_to_time(it.get("time", "00:00"))`. -/
abbrev timeRel (timeOf : α → Tod) : α → α → Prop :=
  fun a b => Tod.le (timeOf a) (timeOf b) = true

instance (timeOf : α → Tod) : IsTotal α (timeRel timeOf) :=
  ⟨fun a b => by
    simp only [timeRel, Tod.le, decide_eq_true_eq]
    omega⟩

instance (timeOf : α → Tod) : IsTrans α (timeRel timeOf) :=
  ⟨fun a b c hab hbc => by
    simp only [timeRel, Tod.le, decide_eq_true_eq] at hab hbc ⊢
    omega⟩

/-- `sorted(schedule, key=lambda it: parse_hhmm_to_time(...))`. -/
def sortByTime (timeOf : α → Tod) (l : List α) : List α :=
  List.insertionSort (timeRel timeOf) l

/-- One iteration of the scan loop in `find_active_item`. -/
def scanStep (timeOf : α → Tod) (now : Tod) (st : Option α × Option α)
    (item : α) : Option α × Option α :=
  let t := timeOf item
  if Tod.le t now then (some item, st.2)
  else if Tod.lt now t && st.2.isNone then (st.1, some item)
  else st

/-- `utils/runtime.py::find_active_item`, generic in the element type. -/
def find_active_core (timeOf : α → Tod) (now : Tod) (schedule : List α) :
    Option α × Option α :=
  if schedule.isEmpty then (none, none)
  else
    let sorted := sortByTime timeOf schedule
    let r := sorted.foldl (scanStep timeOf now) (none, none)
    if r.1.isNone then (none, sorted.head?) else r

end CoreEngine

/-- `utils/runtime.py::find_active_item` on a slot list. -/
def find_active_item (schedule : List Slot) (now : Tod) :
    Option Slot × Option Slot :=
  find_active_core ptimeOf now schedule

/-- An output row of `annotate_schedule_with_status`: the input dict plus
the derived `status` field. -/
structure Annot where
  item : Slot
  status : String
deriving DecidableEq, Repr

/-- Time key of an index-tagged slot. -/
def idxTimeOf (p : Nat × Slot) : Tod := ptimeOf p.2

/-- The `active` object computed inside `annotate_schedule_with_status`
via `find_active_item(schedule, now)`.  Each slot is tagged with its list
index so that two equal dicts at different positions stay distinguishable,
exactly as CPython `id(...)` distinguishes them. -/
def activePair (schedule : List Slot) (now : Tod) : Option (Nat × Slot) :=
  (find_active_core idxTimeOf now schedule.enum).1

/-- `utils/runtime.py::annotate_schedule_with_status`.  The comparison
`id(item) == active_id` becomes equality of list indices. -/
def annotate_schedule_with_status (schedule : List Slot) (now : Tod) :
    List Annot :=
  let act := activePair schedule now
  schedule.enum.map (fun p =>
    let t := idxTimeOf p
    let status :=
      match act with
      | some q =>
          if p.1 = q.1 then "active"
          else if Tod.lt t now then "past" else "upcoming"
      | none => if Tod.lt t now then "past" else "upcoming"
    ⟨p.2, status⟩)

/-! ## Characterisation of the scan loop -/

section CoreHelperDefs

variable {α : Type}

/-- `active`-accumulator semantics: last qualifying element, else the
initial value. -/
def lastWith (p : α → Bool) (l : List α) (a0 : Option α) : Option α :=
  match (l.filter p).getLast? with
  | some x => some x
  | none => a0

/-- `next`-accumulator semantics: the initial value if already set, else
the first qualifying element. -/
def firstWith (p : α → Bool) (l : List α) (n0 : Option α) : Option α :=
  match n0 with
  | some x => some x
  | none => (l.filter p).head?

end CoreHelperDefs

/-- A concrete two-slot schedule used to instantiate the theorems. -/
def wSlotA : Slot := ⟨"a", "09:00", "MEAL", "점심 먹기", [], [], ""⟩

def wSlotB : Slot := ⟨"b", "11:00", "HOBBY", "드라마 보기", [], [], ""⟩

/-! ## The category guardrail (`pages/1_코디네이터_일정입력.py`)

Python's `k in task` substring test on code-point strings is modelled by
`strContains` below, working on `List Char`. -/

def startsWithL : List Char → List Char → Bool
  | [], _ => true
  | _ :: _, [] => false
  | c :: cs, d :: ds => c = d && startsWithL cs ds

def occursL (pat : List Char) : List Char → Bool
  | [] => pat.isEmpty
  | c :: rest => startsWithL pat (c :: rest) || occursL pat rest

/-- Python `pat in text` (substring containment). -/
def strContains (text pat : String) : Bool := occursL pat.toList text.toList

/-- Python `any(k in task for k in kws)`. -/
def hasAnyKw (kws : List String) (text : String) : Bool :=
  kws.any (fun k => strContains text k)

def routine_kw : List String := ["샤워", "세수", "양치", "씻기", "머리감기", "위생"]

def meal_kw : List String :=
  ["식사", "밥", "아침", "점심", "저녁", "간식", "먹기", "먹어요", "먹자"]

def cooking_intent_kw : List String :=
  ["요리", "만들", "끓이", "레시피", "조리", "준비해", "해먹"]

def hobby_kw : List String :=
  ["여가", "휴식", "드라마", "드론", "스포츠", "유튜브", "영상", "보기", "시청"]

def exercise_override_kw : List String := ["운동", "스트레칭", "재활"]

/-- The body of the per-slot loop of `_apply_type_guardrails`:
`task = (it.get("task") or "").strip()`, `t = (it.get("type") or
"").strip()`, then the rule cascade (ROUTINE, then HOBBY unless an
exercise keyword occurs, then MEAL/COOKING, then the COOKING→MEAL
demotion).  Only the `type` field is ever written. -/
def guardrailSlot (it : Slot) : Slot :=
  let task := pyStrip it.task
  let t := pyStrip it.type
  if hasAnyKw routine_kw task then { it with type := "ROUTINE" }
  else if hasAnyKw hobby_kw task && !hasAnyKw exercise_override_kw task then
    { it with type := "HOBBY" }
  else if hasAnyKw meal_kw task then
    (if hasAnyKw cooking_intent_kw task then { it with type := "COOKING" }
     else { it with type := "MEAL" })
  else if t = "COOKING" then
    (if hasAnyKw cooking_intent_kw task then it else { it with type := "MEAL" })
  else it

/-- `_apply_type_guardrails` (the loop mutates each dict in place and
returns the list; modelled as a map). -/
def apply_type_guardrails (schedule : List Slot) : List Slot :=
  schedule.map guardrailSlot

/-! ## Claim C7 -/

def c7Slot : Slot := ⟨"c7", "18:00", "GENERAL", "샤워하고 저녁 먹기", [], [], ""⟩

def w7Slot : Slot := ⟨"w7", "12:00", "GENERAL", "점심 먹기", [], [], ""⟩

/-! ## Menu-name extraction and auto-attachment
(`pages/1_코디네이터_일정입력.py`)

`_extract_menu_names_from_task` first consults the external extraction
service `utils.recipes.suggest_recipes_from_text` (an external
collaborator, passed in here as the parameter `ai`), then falls back to
the local rule-based split. -/

/-- `re.split(r"[,/]| 또는 | 혹은 ", task)` (the three alternative
separators are first-char-disjoint, so leftmost scanning coincides with
the regex). -/
def splitSepsL : List Char → List Char → List (List Char)
  | [], acc => [acc.reverse]
  | ' ' :: '또' :: '는' :: ' ' :: rest, acc => acc.reverse :: splitSepsL rest []
  | ' ' :: '혹' :: '은' :: ' ' :: rest, acc => acc.reverse :: splitSepsL rest []
  | c :: rest, acc =>
      if c = ',' || c = '/' then acc.reverse :: splitSepsL rest []
      else splitSepsL rest (c :: acc)

def endsWithL (pat text : List Char) : Bool := startsWithL pat.reverse text.reverse

/-- Python `text.endswith(pat)`. -/
def strEndsWith (text pat : String) : Bool := endsWithL pat.toList text.toList

def menu_suffixes : List String :=
  ["중 하나 먹기", "먹기", "먹어요", "하기", "훈련", "연습"]

/-- The suffix-trimming loop: for each known suffix in order,
`name = name[:-len(suffix)].strip()` when it matches. -/
def stripSuffixes (name : String) : String :=
  menu_suffixes.foldl (fun n suf =>
    if strEndsWith n suf then
      pyStrip (String.mk (n.toList.take (n.toList.length - suf.toList.length)))
    else n) name

/-- `name.split()[0]`: the first whitespace-separated token.  In the
program this is only reached for a trimmed non-empty `name`, for which
Python's `split()` is non-empty; on an all-whitespace input this model
returns `""` where Python would raise. -/
def firstToken (name : String) : String :=
  String.mk ((name.toList.dropWhile wsChar).takeWhile (fun c => !wsChar c))

/-- `_extract_menu_names_from_task`.  `ai` is the external
`suggest_recipes_from_text` collaborator (its `None` result and `or []`
are folded into returning `[]`). -/
def extract_menu_names_from_task (ai : String → List String)
    (task0 : String) : List String :=
  let task := pyStrip task0
  if task = "" then []
  else
    let names := ai task
    if names ≠ [] then names
    else
      let rough := (splitSepsL task.toList []).map String.mk
      rough.foldl (fun cleaned part =>
        let name := pyStrip part
        if name = "" then cleaned
        else
          let name := stripSuffixes name
          let name :=
            if 10 < name.toList.length ∧ strContains name " " = true then
              firstToken name
            else name
          if name ≠ "" ∧ name ∉ cleaned then cleaned ++ [name] else cleaned) []

def default_food_image : String := "assets/images/default_food.png"

/-- `_auto_attach_cooking_candidates`: only COOKING slots with an empty
`menus` field receive auto-derived menu candidates. -/
def auto_attach_cooking_candidates (ai : String → List String)
    (schedule : List Slot) : List Slot :=
  schedule.map (fun item =>
    if item.type ≠ "COOKING" then item
    else if item.menus ≠ [] then item
    else
      let names := extract_menu_names_from_task ai item.task
      let names := if names = [] ∧ item.task ≠ "" then [item.task] else names
      if names = [] then item
      else { item with menus := names.map (fun n => ⟨n, default_food_image, ""⟩) })

/-- The external extractor returning nothing, so that the local
rule-based fallback runs. -/
def aiEmptyExtractor : String → List String := fun _ => []

/-! ## Claim C8 -/

def c8Slot : Slot := ⟨"c8", "12:00", "GENERAL", "라면 또는 카레 중 하나 먹기", [], [], ""⟩

/-! ## Task display on the user page (`pages/2_사용자_오늘_따라하기.py`)

In `user_page`, the active slot's task is shown via
`task = str(active.get("task") or "").strip()` followed directly by
`st.markdown(f"**오늘 할 일:** {task}")` — a whitespace trim is the only
transform applied to the task text before display. -/

def displayed_task (slot : Slot) : String := pyStrip slot.task

def isTokChar (c : Char) : Bool := c.isUpper || c.isDigit || c = '_'

/-- The string contains a bracketed run of uppercase
letters/digits/underscores (an internal category token such as
`[MEAL]`). -/
def HasCatToken (s : String) : Prop :=
  ∃ a us b : List Char, us ≠ [] ∧ us.all isTokChar = true ∧
    s.toList = a ++ '[' :: (us ++ ']' :: b)

/-! ## Claim C9 -/

def c9Slot : Slot := ⟨"c9", "12:00", "MEAL", "밥 먹기 [MEAL]", [], [], ""⟩

def w9Slot : Slot := ⟨"w9", "12:00", "", "  [COOK_1] 요리  ", [], [], ""⟩

/-! ## The narration state machine (`pages/2_사용자_오늘_따라하기.py`)

`_auto_tts_logic` runs once per polling tick.  Its session state
(`greeting_tts_done`, `last_tts_slot_key`, `last_pre_notice_slot_key`,
`full_narrated_slot_key`) is threaded explicitly as `NarrState`; the
wall clock, loaded document date and computed active/next slots form the
`TickInput`.  A narration event records which of the three narrations
(greeting, alarm+full slot narration, pre-notice) was produced; the
narration text itself is built by separate pure helpers and synthesis
failure only silences audio, so events model the decisions.  Python's
`if active:` / `if next_item:` truthiness is modelled by `Option`
matching (slots are never empty dicts in this program). -/

def allDigits (cs : List Char) : Bool := cs.all Char.isDigit

def digitsVal (cs : List Char) : Nat :=
  cs.foldl (fun acc c => acc * 10 + digitVal c) 0

/-- `datetime.strptime(s, "%H:%M")`, reduced to its time-of-day: one or
two digits each for hour (0-23) and minute (0-59), separated by a colon;
anything else raises (`none`). -/
def strptimeHM? (s : String) : Option Tod :=
  match splitChar ':' s.toList [] with
  | [hh, mm] =>
      if hh ≠ [] ∧ hh.length ≤ 2 ∧ allDigits hh = true ∧
         mm ≠ [] ∧ mm.length ≤ 2 ∧ allDigits mm = true ∧
         digitsVal hh ≤ 23 ∧ digitsVal mm ≤ 59 then
        some ⟨digitsVal hh, digitsVal mm, 0⟩
      else none
  | _ => none

def isLeap (y : Nat) : Bool := (y % 4 = 0 && y % 100 ≠ 0) || y % 400 = 0

def daysInMonth (y m : Nat) : Nat :=
  if m = 2 then (if isLeap y then 29 else 28)
  else if m = 4 ∨ m = 6 ∨ m = 9 ∨ m = 11 then 30
  else 31

structure PyDate where
  year : Nat
  month : Nat
  day : Nat
deriving DecidableEq, Repr

/-- `datetime.strptime(s, "%Y-%m-%d").date()`: four-digit year, one or
two digit month and day, validated against the calendar; anything else
raises (`none`). -/
def pyDate? (s : String) : Option PyDate :=
  match splitChar '-' s.toList [] with
  | [ys, ms, ds] =>
      if ys.length = 4 ∧ allDigits ys = true ∧
         ms ≠ [] ∧ ms.length ≤ 2 ∧ allDigits ms = true ∧
         ds ≠ [] ∧ ds.length ≤ 2 ∧ allDigits ds = true ∧
         1 ≤ digitsVal ys ∧
         1 ≤ digitsVal ms ∧ digitsVal ms ≤ 12 ∧
         1 ≤ digitsVal ds ∧
         digitsVal ds ≤ daysInMonth (digitsVal ys) (digitsVal ms) then
        some ⟨digitsVal ys, digitsVal ms, digitsVal ds⟩
      else none
  | _ => none

/-- `_make_slot_key`: the narration identity key
`f"{date_str}_{slot.get('time','')}_{slot.get('type','')}_{slot.get('task','')}"`. -/
def make_slot_key (date_str : String) (slot : Slot) : String :=
  date_str ++ "_" ++ slot.time ++ "_" ++ slot.type ++ "_" ++ slot.task

structure NarrState where
  greeting_tts_done : Bool
  last_tts_slot_key : String
  last_pre_notice_slot_key : String
  full_narrated_slot_key : String
deriving DecidableEq, Repr

/-- The value each session flag is initialised to on first use. -/
def initNarrState : NarrState := ⟨false, "", "", ""⟩

inductive NarrEvent where
  | greeting : NarrEvent
  | slotIntro : String → NarrEvent
  | preNotice : String → NarrEvent
deriving DecidableEq, Repr

structure TickInput where
  nowDate : PyDate
  nowHour : Nat
  nowMinute : Nat
  nowSecond : Nat
  date_str : String
  active : Option Slot
  next_item : Option Slot
  audio_unlocked : Bool
deriving Repr

def nowSecOfDay (inp : TickInput) : Nat :=
  inp.nowHour * 3600 + inp.nowMinute * 60 + inp.nowSecond

/-- Step 3 of `_auto_tts_logic`: the five-minute pre-notice.
`next_dt - now` is computed at second granularity on the same date;
`0 < diff_min <= PRE_NOTICE_MINUTES` becomes `0 < diffSec ≤ 300`. -/
def pre_notice_branch (inp : TickInput) (st : NarrState) :
    List NarrEvent × NarrState :=
  match inp.next_item with
  | none => ([], st)
  | some n =>
      match strptimeHM? (pyStrip n.time) with
      | none => ([], st)
      | some t =>
          if 0 < ((t.hour * 3600 + t.minute * 60 : Nat) : Int) -
                ((nowSecOfDay inp : Nat) : Int) ∧
              ((t.hour * 3600 + t.minute * 60 : Nat) : Int) -
                ((nowSecOfDay inp : Nat) : Int) ≤ 300 ∧
              st.last_pre_notice_slot_key ≠ make_slot_key inp.date_str n then
            ([NarrEvent.preNotice (make_slot_key inp.date_str n)],
              { st with last_pre_notice_slot_key :=
                  make_slot_key inp.date_str n })
          else ([], st)

/-- `_auto_tts_logic`: date guard, audio-unlock guard, then (1) first
greeting of the session, (2) slot change → alarm + full narration,
(3) pre-notice. -/
def auto_tts_logic (inp : TickInput) (st : NarrState) :
    List NarrEvent × NarrState :=
  match pyDate? inp.date_str with
  | none => ([], st)
  | some d =>
      if d ≠ inp.nowDate then ([], st)
      else if inp.audio_unlocked = false then ([], st)
      else if st.greeting_tts_done = false then
        ([NarrEvent.greeting], { st with greeting_tts_done := true })
      else
        match inp.active with
        | some a =>
            if st.full_narrated_slot_key ≠ make_slot_key inp.date_str a then
              ([NarrEvent.slotIntro (make_slot_key inp.date_str a)],
                { st with
                    full_narrated_slot_key := make_slot_key inp.date_str a,
                    last_tts_slot_key := make_slot_key inp.date_str a })
            else pre_notice_branch inp st
        | none => pre_notice_branch inp st

/-- A run of consecutive polling ticks, accumulating all events. -/
def auto_tts_run (inps : List TickInput) (st : NarrState) :
    List NarrEvent × NarrState :=
  match inps with
  | [] => ([], st)
  | i :: rest =>
      let r1 := auto_tts_logic i st
      let r2 := auto_tts_run rest r1.2
      (r1.1 ++ r2.1, r2.2)

def isGreetingEv : NarrEvent → Bool
  | NarrEvent.greeting => true
  | _ => false

def isSlotIntroEv : NarrEvent → Bool
  | NarrEvent.slotIntro _ => true
  | _ => false

def isPreNoticeEv : NarrEvent → Bool
  | NarrEvent.preNotice _ => true
  | _ => false

/-! ## Claim C5 -/

def exActive : Slot := ⟨"a1", "09:00", "MEAL", "아침 먹기", [], [], ""⟩

def exNext : Slot := ⟨"a2", "09:04", "HOBBY", "휴식", [], [], ""⟩

def exTick : TickInput :=
  ⟨⟨2026, 1, 2⟩, 9, 0, 0, "2026-01-02", some exActive, some exNext, true⟩

def wNarrState : NarrState := ⟨true, "", "", make_slot_key "2026-01-02" exActive⟩

/-! ## Claim C6 -/

def exTickD1 : TickInput :=
  ⟨⟨2026, 1, 2⟩, 9, 0, 0, "2026-01-02", none, none, true⟩

def exTickD2 : TickInput :=
  ⟨⟨2026, 1, 3⟩, 9, 0, 0, "2026-01-03", none, none, true⟩

def wStateG : NarrState := ⟨true, "", "", ""⟩

/-! # Theorems -/

theorem Tod.le_refl (a : Tod) : Tod.le a a = true := by
  simp [Tod.le]

theorem Tod.le_trans {a b c : Tod} (h1 : Tod.le a b = true)
    (h2 : Tod.le b c = true) : Tod.le a c = true := by
  simp only [Tod.le, decide_eq_true_eq] at h1 h2 ⊢
  omega

theorem Tod.le_total (a b : Tod) : (Tod.le a b || Tod.le b a) = true := by
  simp only [Tod.le, Bool.or_eq_true, decide_eq_true_eq]
  omega

theorem Tod.lt_eq_not_le (a b : Tod) : Tod.lt a b = !Tod.le b a := by
  simp only [Tod.lt, Tod.le, ← decide_not]
  apply decide_eq_decide.mpr
  omega

theorem Tod.not_le {a b : Tod} (h : Tod.le a b = false) : Tod.lt b a = true := by
  rw [Tod.lt_eq_not_le, h]
  rfl

theorem Tod.lt_le {a b : Tod} (h : Tod.lt a b = true) : Tod.le a b = true := by
  simp only [Tod.lt, decide_eq_true_eq] at h
  simp only [Tod.le, decide_eq_true_eq]
  omega

example :
    find_active_item
      [⟨"a", "09:00", "MEAL", "x", [], [], ""⟩,
       ⟨"b", "11:00", "HOBBY", "y", [], [], ""⟩] ⟨10, 0, 0⟩ =
    (some ⟨"a", "09:00", "MEAL", "x", [], [], ""⟩,
     some ⟨"b", "11:00", "HOBBY", "y", [], [], ""⟩) := by decide

example :
    (annotate_schedule_with_status
      [⟨"a", "09:00", "MEAL", "x", [], [], ""⟩,
       ⟨"b", "09:00", "MEAL", "x", [], [], ""⟩] ⟨10, 0, 0⟩).map Annot.status =
    ["past", "active"] := by decide

section CoreLemmas

variable {α : Type}

theorem lastWith_none (p : α → Bool) (l : List α) :
    lastWith p l none = (l.filter p).getLast? := by
  unfold lastWith
  cases (l.filter p).getLast? <;> rfl

theorem firstWith_none (p : α → Bool) (l : List α) :
    firstWith p l none = (l.filter p).head? := rfl

theorem getLast?_cons_eq (x : α) (xs : List α) :
    (x :: xs).getLast? =
      match xs.getLast? with
      | some y => some y
      | none => some x := by
  cases xs with
  | nil => rfl
  | cons y ys =>
    rw [List.getLast?_cons_cons]
    cases hys : (y :: ys).getLast? with
    | none => exact absurd (List.getLast?_eq_none_iff.mp hys) (by simp)
    | some z => rfl

theorem foldl_scanStep (timeOf : α → Tod) (now : Tod) (l : List α) :
    ∀ a0 n0 : Option α,
      l.foldl (scanStep timeOf now) (a0, n0) =
        (lastWith (fun x => Tod.le (timeOf x) now) l a0,
         firstWith (fun x => Tod.lt now (timeOf x)) l n0) := by
  induction l with
  | nil =>
    intro a0 n0
    cases n0 <;> simp [lastWith, firstWith]
  | cons x l ih =>
    intro a0 n0
    rw [List.foldl_cons]
    by_cases h1 : Tod.le (timeOf x) now = true
    · have hg : Tod.lt now (timeOf x) = false := by
        rw [Tod.lt_eq_not_le, h1]; rfl
      have hs : scanStep timeOf now (a0, n0) x = (some x, n0) := by
        simp [scanStep, h1]
      rw [hs, ih]
      have hl : lastWith (fun y => Tod.le (timeOf y) now) (x :: l) a0 =
          lastWith (fun y => Tod.le (timeOf y) now) l (some x) := by
        unfold lastWith
        rw [List.filter_cons, if_pos (by simpa using h1), getLast?_cons_eq]
        cases (l.filter fun y => Tod.le (timeOf y) now).getLast? <;> rfl
      have hf : firstWith (fun y => Tod.lt now (timeOf y)) (x :: l) n0 =
          firstWith (fun y => Tod.lt now (timeOf y)) l n0 := by
        unfold firstWith
        cases n0 with
        | some y => rfl
        | none => rw [List.filter_cons, if_neg (by simp [hg])]
      rw [hl, hf]
    · have h1f : Tod.le (timeOf x) now = false := by
        rwa [Bool.not_eq_true] at h1
      have hg : Tod.lt now (timeOf x) = true := Tod.not_le h1f
      have hl : lastWith (fun y => Tod.le (timeOf y) now) (x :: l) a0 =
          lastWith (fun y => Tod.le (timeOf y) now) l a0 := by
        unfold lastWith
        rw [List.filter_cons, if_neg (by simp [h1f])]
      cases n0 with
      | none =>
        have hs : scanStep timeOf now (a0, none) x = (a0, some x) := by
          simp [scanStep, h1f, hg]
        rw [hs, ih, hl]
        have hf : firstWith (fun y => Tod.lt now (timeOf y)) (x :: l) none =
            some x := by
          unfold firstWith
          rw [List.filter_cons, if_pos (by simpa using hg)]
          rfl
        rw [hf]
        unfold firstWith
        rfl
      | some y =>
        have hs : scanStep timeOf now (a0, some y) x = (a0, some y) := by
          simp [scanStep, h1f]
        rw [hs, ih, hl]
        rfl

theorem mem_of_getLast? {l : List α} {x : α} (h : l.getLast? = some x) :
    x ∈ l := by
  induction l with
  | nil => simp at h
  | cons a l ih =>
    cases l with
    | nil =>
      simp only [List.getLast?_singleton, Option.some.injEq] at h
      simp [h]
    | cons b l' =>
      rw [List.getLast?_cons_cons] at h
      exact List.mem_cons_of_mem a (ih h)

theorem pairwise_getLast_max {timeOf : α → Tod} :
    ∀ {l : List α}, List.Pairwise (timeRel timeOf) l →
      ∀ {x : α}, l.getLast? = some x →
        ∀ y ∈ l, Tod.le (timeOf y) (timeOf x) = true := by
  intro l
  induction l with
  | nil => intro _ x hx; simp at hx
  | cons a l ih =>
    intro hp x hx y hy
    rcases List.pairwise_cons.mp hp with ⟨ha, hp'⟩
    cases l with
    | nil =>
      simp only [List.getLast?_singleton, Option.some.injEq] at hx
      subst hx
      rcases List.mem_singleton.mp hy with rfl
      exact Tod.le_refl _
    | cons b l' =>
      rw [List.getLast?_cons_cons] at hx
      rcases List.mem_cons.mp hy with rfl | hy'
      · exact ha x (mem_of_getLast? hx)
      · exact ih hp' hx y hy'

theorem pairwise_head_min {timeOf : α → Tod} {l : List α}
    (hp : List.Pairwise (timeRel timeOf) l) {x : α} (hx : l.head? = some x) :
    ∀ y ∈ l, Tod.le (timeOf x) (timeOf y) = true := by
  cases l with
  | nil => simp at hx
  | cons a l =>
    simp only [List.head?_cons, Option.some.injEq] at hx
    subst hx
    intro y hy
    rcases List.mem_cons.mp hy with rfl | hy'
    · exact Tod.le_refl _
    · exact (List.pairwise_cons.mp hp).1 y hy'

theorem getLast?_filter_decomp (p : α → Bool) :
    ∀ (l : List α) {x : α}, (l.filter p).getLast? = some x →
      ∃ l₁ l₂, l = l₁ ++ x :: l₂ ∧ ∀ y ∈ l₂, p y = false := by
  intro l
  induction l with
  | nil => intro x hx; simp at hx
  | cons a l ih =>
    intro x hx
    rw [List.filter_cons] at hx
    by_cases ha : p a = true
    · rw [if_pos (by simpa using ha)] at hx
      cases hfl : (l.filter p).getLast? with
      | some z =>
        rw [getLast?_cons_eq, hfl, Option.some.injEq] at hx
        subst hx
        rcases ih hfl with ⟨l₁, l₂, rfl, h2⟩
        exact ⟨a :: l₁, l₂, rfl, h2⟩
      | none =>
        rw [getLast?_cons_eq, hfl, Option.some.injEq] at hx
        subst hx
        refine ⟨[], l, rfl, fun y hy => ?_⟩
        have := List.filter_eq_nil_iff.mp (List.getLast?_eq_none_iff.mp hfl) y hy
        rwa [Bool.not_eq_true] at this
    · rw [if_neg (by simpa using ha)] at hx
      rcases ih hx with ⟨l₁, l₂, rfl, h2⟩
      exact ⟨a :: l₁, l₂, rfl, h2⟩

end CoreLemmas

/-! ## Behaviour of `find_active_core` -/

section CoreSpec

variable {α : Type} (timeOf : α → Tod) (now : Tod)

theorem sortByTime_pairwise (l : List α) :
    List.Pairwise (timeRel timeOf) (sortByTime timeOf l) :=
  List.sorted_insertionSort (timeRel timeOf) l

theorem sortByTime_perm (l : List α) : (sortByTime timeOf l).Perm l :=
  List.perm_insertionSort (timeRel timeOf) l

theorem find_active_core_nil : find_active_core timeOf now [] = (none, none) := by
  simp [find_active_core]

theorem core_eq_of_some (sch : List α) (hne : sch ≠ []) {a : α}
    (hl : ((sortByTime timeOf sch).filter
      (fun x => Tod.le (timeOf x) now)).getLast? = some a) :
    find_active_core timeOf now sch =
      (some a, ((sortByTime timeOf sch).filter
        (fun x => Tod.lt now (timeOf x))).head?) := by
  obtain ⟨c, l, rfl⟩ : ∃ c l, sch = c :: l := by
    cases sch with
    | nil => exact absurd rfl hne
    | cons c l => exact ⟨c, l, rfl⟩
  show (if ((sortByTime timeOf (c :: l)).foldl
        (scanStep timeOf now) (none, none)).1.isNone
      then (none, (sortByTime timeOf (c :: l)).head?)
      else (sortByTime timeOf (c :: l)).foldl (scanStep timeOf now) (none, none)) = _
  rw [foldl_scanStep, lastWith_none, firstWith_none, hl]
  rfl

theorem core_eq_of_none (sch : List α) (hne : sch ≠ [])
    (hl : ((sortByTime timeOf sch).filter
      (fun x => Tod.le (timeOf x) now)).getLast? = none) :
    find_active_core timeOf now sch = (none, (sortByTime timeOf sch).head?) := by
  obtain ⟨c, l, rfl⟩ : ∃ c l, sch = c :: l := by
    cases sch with
    | nil => exact absurd rfl hne
    | cons c l => exact ⟨c, l, rfl⟩
  show (if ((sortByTime timeOf (c :: l)).foldl
        (scanStep timeOf now) (none, none)).1.isNone
      then (none, (sortByTime timeOf (c :: l)).head?)
      else (sortByTime timeOf (c :: l)).foldl (scanStep timeOf now) (none, none)) = _
  rw [foldl_scanStep, lastWith_none, firstWith_none, hl]
  rfl

theorem core_active_mem_max (sch : List α) {a : α}
    (h : (find_active_core timeOf now sch).1 = some a) :
    a ∈ sch ∧ Tod.le (timeOf a) now = true ∧
      ∀ b ∈ sch, Tod.le (timeOf b) now = true →
        Tod.le (timeOf b) (timeOf a) = true := by
  have hne : sch ≠ [] := by
    rintro rfl
    rw [find_active_core_nil] at h
    simp at h
  cases hl : ((sortByTime timeOf sch).filter
      (fun x => Tod.le (timeOf x) now)).getLast? with
  | none =>
    rw [core_eq_of_none timeOf now sch hne hl] at h
    simp at h
  | some x =>
    rw [core_eq_of_some timeOf now sch hne hl] at h
    simp only [Option.some.injEq] at h
    subst h
    have hmem' := mem_of_getLast? hl
    rcases List.mem_filter.mp hmem' with ⟨hxS, hxq⟩
    have hpf := (sortByTime_pairwise timeOf sch).sublist
      (@List.filter_sublist α (fun x => Tod.le (timeOf x) now)
        (sortByTime timeOf sch))
    refine ⟨(sortByTime_perm timeOf sch).mem_iff.mp hxS, hxq, ?_⟩
    intro b hb hbq
    have hbS : b ∈ sortByTime timeOf sch :=
      (sortByTime_perm timeOf sch).mem_iff.mpr hb
    exact pairwise_getLast_max hpf hl b (List.mem_filter.mpr ⟨hbS, hbq⟩)

theorem core_active_none_iff (sch : List α) :
    ((find_active_core timeOf now sch).1 = none ↔
      ∀ b ∈ sch, Tod.le (timeOf b) now = false) := by
  cases hsch : sch with
  | nil => simp [find_active_core_nil]
  | cons c l =>
    rw [← hsch]
    have hne : sch ≠ [] := by rw [hsch]; simp
    cases hl : ((sortByTime timeOf sch).filter
        (fun x => Tod.le (timeOf x) now)).getLast? with
    | none =>
      rw [core_eq_of_none timeOf now sch hne hl]
      have hfe := List.getLast?_eq_none_iff.mp hl
      constructor
      · intro _ b hb
        have hbS : b ∈ sortByTime timeOf sch :=
          (sortByTime_perm timeOf sch).mem_iff.mpr hb
        have := List.filter_eq_nil_iff.mp hfe b hbS
        rwa [Bool.not_eq_true] at this
      · intro _
        rfl
    | some x =>
      rw [core_eq_of_some timeOf now sch hne hl]
      constructor
      · intro hx
        simp at hx
      · intro hall
        have hmem' := mem_of_getLast? hl
        rcases List.mem_filter.mp hmem' with ⟨hxS, hxq⟩
        have hx := hall x ((sortByTime_perm timeOf sch).mem_iff.mp hxS)
        rw [hx] at hxq
        simp at hxq

theorem core_next_mem_min (sch : List α) {n : α}
    (h : (find_active_core timeOf now sch).2 = some n) :
    n ∈ sch ∧ Tod.lt now (timeOf n) = true ∧
      ∀ b ∈ sch, Tod.lt now (timeOf b) = true →
        Tod.le (timeOf n) (timeOf b) = true := by
  have hne : sch ≠ [] := by
    rintro rfl
    rw [find_active_core_nil] at h
    simp at h
  cases hl : ((sortByTime timeOf sch).filter
      (fun x => Tod.le (timeOf x) now)).getLast? with
  | some a =>
    rw [core_eq_of_some timeOf now sch hne hl] at h
    simp only [] at h
    have hmem' : n ∈ (sortByTime timeOf sch).filter
        (fun x => Tod.lt now (timeOf x)) :=
      List.mem_of_mem_head? (Option.mem_def.mpr h)
    rcases List.mem_filter.mp hmem' with ⟨hnS, hnq⟩
    have hpf := (sortByTime_pairwise timeOf sch).sublist
      (@List.filter_sublist α (fun x => Tod.lt now (timeOf x))
        (sortByTime timeOf sch))
    refine ⟨(sortByTime_perm timeOf sch).mem_iff.mp hnS, hnq, ?_⟩
    intro b hb hbq
    have hbS : b ∈ sortByTime timeOf sch :=
      (sortByTime_perm timeOf sch).mem_iff.mpr hb
    exact pairwise_head_min hpf h b (List.mem_filter.mpr ⟨hbS, hbq⟩)
  | none =>
    rw [core_eq_of_none timeOf now sch hne hl] at h
    simp only [] at h
    have hnS : n ∈ sortByTime timeOf sch :=
      List.mem_of_mem_head? (Option.mem_def.mpr h)
    have hnone : (find_active_core timeOf now sch).1 = none := by
      rw [core_eq_of_none timeOf now sch hne hl]
    have hall := (core_active_none_iff timeOf now sch).mp hnone
    have hnq : Tod.lt now (timeOf n) = true :=
      Tod.not_le (hall n ((sortByTime_perm timeOf sch).mem_iff.mp hnS))
    refine ⟨(sortByTime_perm timeOf sch).mem_iff.mp hnS, hnq, ?_⟩
    intro b hb _
    have hbS : b ∈ sortByTime timeOf sch :=
      (sortByTime_perm timeOf sch).mem_iff.mpr hb
    exact pairwise_head_min (sortByTime_pairwise timeOf sch) h b hbS

theorem core_next_none_iff (sch : List α) (hne : sch ≠ []) :
    ((find_active_core timeOf now sch).2 = none ↔
      ∀ b ∈ sch, Tod.lt now (timeOf b) = false) := by
  have hSne : sortByTime timeOf sch ≠ [] := by
    intro h0
    have hlen := (sortByTime_perm timeOf sch).length_eq
    rw [h0] at hlen
    exact hne (List.length_eq_zero.mp hlen.symm)
  cases hl : ((sortByTime timeOf sch).filter
      (fun x => Tod.le (timeOf x) now)).getLast? with
  | some a =>
    rw [core_eq_of_some timeOf now sch hne hl]
    constructor
    · intro hh b hb
      have hfe : (sortByTime timeOf sch).filter
          (fun x => Tod.lt now (timeOf x)) = [] := by
        cases hfo : (sortByTime timeOf sch).filter
            (fun x => Tod.lt now (timeOf x)) with
        | nil => rfl
        | cons c cs =>
          rw [hfo] at hh
          simp at hh
      have hbS : b ∈ sortByTime timeOf sch :=
        (sortByTime_perm timeOf sch).mem_iff.mpr hb
      have := List.filter_eq_nil_iff.mp hfe b hbS
      rwa [Bool.not_eq_true] at this
    · intro hall
      have hfe : (sortByTime timeOf sch).filter
          (fun x => Tod.lt now (timeOf x)) = [] := by
        apply List.filter_eq_nil_iff.mpr
        intro x hx
        rw [hall x ((sortByTime_perm timeOf sch).mem_iff.mp hx)]
        simp
      rw [hfe]
      rfl
  | none =>
    rw [core_eq_of_none timeOf now sch hne hl]
    have hnone : (find_active_core timeOf now sch).1 = none := by
      rw [core_eq_of_none timeOf now sch hne hl]
    have hall := (core_active_none_iff timeOf now sch).mp hnone
    obtain ⟨c, l, rfl⟩ : ∃ c l, sch = c :: l := by
      cases sch with
      | nil => exact absurd rfl hne
      | cons c l => exact ⟨c, l, rfl⟩
    constructor
    · intro hh
      cases hS : sortByTime timeOf (c :: l) with
      | nil => exact absurd hS hSne
      | cons d ds =>
        rw [hS] at hh
        simp at hh
    · intro hno
      have hf := hno c (by simp)
      have hgt : Tod.lt now (timeOf c) = true := Tod.not_le (hall c (by simp))
      rw [hf] at hgt
      simp at hgt

theorem core_fallback (sch : List α) (hne : sch ≠ [])
    (h : (find_active_core timeOf now sch).1 = none) :
    (find_active_core timeOf now sch).2 = (sortByTime timeOf sch).head? := by
  cases hl : ((sortByTime timeOf sch).filter
      (fun x => Tod.le (timeOf x) now)).getLast? with
  | some a =>
    rw [core_eq_of_some timeOf now sch hne hl] at h
    simp at h
  | none =>
    rw [core_eq_of_none timeOf now sch hne hl]

end CoreSpec

/-! ## Claim C1 -/

/-- C1: for every slot list and time-of-day `now`, `find_active_item`
returns as `active` the slot whose parsed start time is the maximum among
those `≤ now` (`none` if no slot qualifies), and as `next` the slot whose
parsed start time is the minimum among those `> now`; the empty list
yields `(none, none)`; and on a non-empty list with `active = none`,
`next` is the earliest slot in time-sorted order (the head of the stable
time-sorted list). -/
theorem find_active_item_spec (schedule : List Slot) (now : Tod) :
    (schedule = [] → find_active_item schedule now = (none, none)) ∧
    (∀ a : Slot, (find_active_item schedule now).1 = some a →
      a ∈ schedule ∧ Tod.le (ptimeOf a) now = true ∧
      ∀ b ∈ schedule, Tod.le (ptimeOf b) now = true →
        Tod.le (ptimeOf b) (ptimeOf a) = true) ∧
    ((find_active_item schedule now).1 = none →
      ∀ b ∈ schedule, Tod.le (ptimeOf b) now = false) ∧
    (∀ n : Slot, (find_active_item schedule now).2 = some n →
      n ∈ schedule ∧ Tod.lt now (ptimeOf n) = true ∧
      ∀ b ∈ schedule, Tod.lt now (ptimeOf b) = true →
        Tod.le (ptimeOf n) (ptimeOf b) = true) ∧
    (schedule ≠ [] → (find_active_item schedule now).1 = none →
      (find_active_item schedule now).2 = (sortByTime ptimeOf schedule).head?) ∧
    (schedule ≠ [] →
      ((find_active_item schedule now).2 = none ↔
        ∀ b ∈ schedule, Tod.lt now (ptimeOf b) = false)) := by
  refine ⟨?_, ?_, ?_, ?_, ?_, ?_⟩
  · rintro rfl
    exact find_active_core_nil ptimeOf now
  · intro a h
    exact core_active_mem_max ptimeOf now schedule h
  · intro h
    exact (core_active_none_iff ptimeOf now schedule).mp h
  · intro n h
    exact core_next_mem_min ptimeOf now schedule h
  · intro hne h
    exact core_fallback ptimeOf now schedule hne h
  · intro hne
    exact core_next_none_iff ptimeOf now schedule hne

/-- Witness for C1 at a concrete input: at 10:00 the 09:00 slot is active
and is maximal among slots `≤ now`. -/
theorem find_active_item_spec_witness :
    wSlotA ∈ [wSlotA, wSlotB] ∧ Tod.le (ptimeOf wSlotA) ⟨10, 0, 0⟩ = true ∧
      ∀ b ∈ [wSlotA, wSlotB], Tod.le (ptimeOf b) ⟨10, 0, 0⟩ = true →
        Tod.le (ptimeOf b) (ptimeOf wSlotA) = true :=
  (find_active_item_spec [wSlotA, wSlotB] ⟨10, 0, 0⟩).2.1 wSlotA (by decide)

/-! ## Claim C2 -/

theorem countP_enum_idx {α : Type} (l : List α) (j : Nat) :
    l.enum.countP (fun p => p.1 == j) = if j < l.length then 1 else 0 := by
  have h1 : l.enum.countP (fun p => p.1 == j) =
      (l.enum.map Prod.fst).countP (fun i => i == j) :=
    (List.countP_map (fun i => i == j) Prod.fst l.enum).symm
  rw [h1, List.enum_map_fst, ← List.count_eq_countP]
  by_cases hj : j < l.length
  · rw [if_pos hj]
    exact List.count_eq_one_of_mem (List.nodup_range _) (List.mem_range.mpr hj)
  · rw [if_neg hj]
    exact List.count_eq_zero_of_not_mem (fun hmem => hj (List.mem_range.mp hmem))

theorem mem_enum_fst_lt {α : Type} {l : List α} {q : Nat × α}
    (h : q ∈ l.enum) : q.1 < l.length :=
  (List.getElem?_eq_some_iff.mp (List.mem_enum_iff_getElem?.mp h)).1

theorem mem_enum_snd_mem {α : Type} {l : List α} {q : Nat × α}
    (h : q ∈ l.enum) : q.2 ∈ l := by
  have h2 : q.2 ∈ l.enum.map Prod.snd := List.mem_map_of_mem Prod.snd h
  rwa [List.enum_map_snd] at h2

theorem exists_enum_of_mem {α : Type} {l : List α} {s : α} (h : s ∈ l) :
    ∃ p ∈ l.enum, p.2 = s := by
  rw [← List.enum_map_snd l] at h
  rcases List.mem_map.mp h with ⟨p, hp, hps⟩
  exact ⟨p, hp, hps⟩

theorem annotate_eq_some (schedule : List Slot) (now : Tod) {q : Nat × Slot}
    (h : activePair schedule now = some q) :
    annotate_schedule_with_status schedule now =
      schedule.enum.map (fun p =>
        ⟨p.2, if p.1 = q.1 then "active"
              else if Tod.lt (idxTimeOf p) now then "past" else "upcoming"⟩) := by
  simp only [annotate_schedule_with_status, h]

theorem annotate_eq_none (schedule : List Slot) (now : Tod)
    (h : activePair schedule now = none) :
    annotate_schedule_with_status schedule now =
      schedule.enum.map (fun p =>
        ⟨p.2, if Tod.lt (idxTimeOf p) now then "past" else "upcoming"⟩) := by
  simp only [annotate_schedule_with_status, h]

/-- C2: `annotate_schedule_with_status` keeps the slots in input order,
marks exactly one slot `active` when some slot starts at or before `now`
and zero otherwise (never more than one, even with duplicate start
times; the last qualifying entry of the stable time-sorted order wins),
and marks every non-active slot `past` exactly when its start time is
strictly before `now` and `upcoming` otherwise. -/
theorem annotate_schedule_with_status_spec (schedule : List Slot) (now : Tod) :
    ((annotate_schedule_with_status schedule now).map Annot.item = schedule) ∧
    ((annotate_schedule_with_status schedule now).countP
        (fun a => a.status == "active") =
      if schedule.any (fun s => Tod.le (ptimeOf s) now) then 1 else 0) ∧
    (∀ a ∈ annotate_schedule_with_status schedule now, a.status ≠ "active" →
      (a.status = "past" ↔ Tod.lt (ptimeOf a.item) now = true) ∧
      (a.status = "upcoming" ↔ Tod.lt (ptimeOf a.item) now = false)) ∧
    (∀ q : Nat × Slot, activePair schedule now = some q →
      ∃ l₁ l₂, sortByTime idxTimeOf schedule.enum = l₁ ++ q :: l₂ ∧
        ∀ p ∈ l₂, Tod.le (ptimeOf p.2) now = false) := by
  refine ⟨?_, ?_, ?_, ?_⟩
  · cases hact : activePair schedule now with
    | some q =>
      rw [annotate_eq_some schedule now hact, List.map_map]
      exact List.enum_map_snd schedule
    | none =>
      rw [annotate_eq_none schedule now hact, List.map_map]
      exact List.enum_map_snd schedule
  · cases hact : activePair schedule now with
    | some q =>
      obtain ⟨hqmem, hqle, -⟩ :=
        core_active_mem_max idxTimeOf now schedule.enum hact
      have hany : schedule.any (fun s => Tod.le (ptimeOf s) now) = true :=
        List.any_eq_true.mpr ⟨q.2, mem_enum_snd_mem hqmem, hqle⟩
      rw [hany, if_pos rfl]
      rw [annotate_eq_some schedule now hact, List.countP_map]
      have hc : schedule.enum.countP
            ((fun a : Annot => a.status == "active") ∘ (fun p =>
              ⟨p.2, if p.1 = q.1 then "active"
                    else if Tod.lt (idxTimeOf p) now then "past"
                    else "upcoming"⟩)) =
          schedule.enum.countP (fun p => p.1 == q.1) := by
        apply List.countP_congr
        intro p _
        by_cases hpq : p.1 = q.1
        · simp [hpq]
        · by_cases ht : Tod.lt (idxTimeOf p) now = true <;> simp [hpq, ht]
      rw [hc, countP_enum_idx]
      rw [if_pos (mem_enum_fst_lt hqmem)]
    | none =>
      have hall := (core_active_none_iff idxTimeOf now schedule.enum).mp hact
      have hany : schedule.any (fun s => Tod.le (ptimeOf s) now) = false := by
        cases hb : schedule.any (fun s => Tod.le (ptimeOf s) now) with
        | false => rfl
        | true =>
          exfalso
          rcases List.any_eq_true.mp hb with ⟨s, hs, hle⟩
          rcases exists_enum_of_mem hs with ⟨p, hp, hps⟩
          have h2 : Tod.le (ptimeOf s) now = false := by
            rw [← hps]
            exact hall p hp
          rw [hle] at h2
          simp at h2
      rw [hany]
      simp only [Bool.false_eq_true, if_false]
      rw [annotate_eq_none schedule now hact, List.countP_map]
      apply List.countP_eq_zero.mpr
      intro p _
      by_cases ht : Tod.lt (idxTimeOf p) now = true <;> simp [ht]
  · intro a ha hneq
    cases hact : activePair schedule now with
    | some q =>
      rw [annotate_eq_some schedule now hact] at ha
      rcases List.mem_map.mp ha with ⟨p, _, rfl⟩
      by_cases hpq : p.1 = q.1
      · exfalso
        apply hneq
        simp [hpq]
      · have ht2 : Tod.lt (ptimeOf p.2) now = Tod.lt (idxTimeOf p) now := rfl
        by_cases ht : Tod.lt (idxTimeOf p) now = true <;>
          constructor <;> simp [hpq, ht, ht2]
    | none =>
      rw [annotate_eq_none schedule now hact] at ha
      rcases List.mem_map.mp ha with ⟨p, _, rfl⟩
      have ht2 : Tod.lt (ptimeOf p.2) now = Tod.lt (idxTimeOf p) now := rfl
      by_cases ht : Tod.lt (idxTimeOf p) now = true <;>
        constructor <;> simp [ht, ht2]
  · intro q hact
    have hact' : (find_active_core idxTimeOf now schedule.enum).1 = some q := hact
    have hne : schedule.enum ≠ [] := by
      intro h0
      rw [h0, find_active_core_nil] at hact'
      simp at hact'
    cases hl : ((sortByTime idxTimeOf schedule.enum).filter
        (fun x => Tod.le (idxTimeOf x) now)).getLast? with
    | none =>
      rw [core_eq_of_none idxTimeOf now _ hne hl] at hact'
      simp at hact'
    | some x =>
      have hx : (find_active_core idxTimeOf now schedule.enum).1 = some x := by
        rw [core_eq_of_some idxTimeOf now _ hne hl]
      rw [hx, Option.some.injEq] at hact'
      subst hact'
      rcases getLast?_filter_decomp _ _ hl with ⟨l₁, l₂, hdec, hpost⟩
      exact ⟨l₁, l₂, hdec, fun p hp => hpost p hp⟩

/-- Witness for C2 at a concrete input: at 10:00 the 11:00 slot is not
active, is not past, and is upcoming. -/
theorem annotate_schedule_with_status_spec_witness :
    ((⟨wSlotB, "upcoming"⟩ : Annot).status = "past" ↔
      Tod.lt (ptimeOf wSlotB) ⟨10, 0, 0⟩ = true) ∧
    ((⟨wSlotB, "upcoming"⟩ : Annot).status = "upcoming" ↔
      Tod.lt (ptimeOf wSlotB) ⟨10, 0, 0⟩ = false) :=
  (annotate_schedule_with_status_spec [wSlotA, wSlotB] ⟨10, 0, 0⟩).2.2.1
    ⟨wSlotB, "upcoming"⟩ (by decide) (by decide)

/-! ## Claim C3 -/

/-- C3: `parse_hhmm_to_time` is total (a Lean function; every failure of
the Python body is caught and mapped to `time(0,0)`): every well-formed
zero-padded `"HH:MM"` string (hour 0-23, minute 0-59) round-trips to
exactly that (hour, minute) pair, and malformed inputs — the empty
string, out-of-range `"25:99"`, non-numeric text, a non-string value —
yield `00:00`, as does every input on which the parsing core fails. -/
theorem parse_hhmm_to_time_spec :
    (∀ h : Nat, h < 24 → ∀ m : Nat, m < 60 →
      parse_hhmm_to_time (fmt2 h ++ ":" ++ fmt2 m) = ⟨h, m, 0⟩) ∧
    parse_hhmm_py none = ⟨0, 0, 0⟩ ∧
    parse_hhmm_to_time "" = ⟨0, 0, 0⟩ ∧
    parse_hhmm_to_time "25:99" = ⟨0, 0, 0⟩ ∧
    parse_hhmm_to_time "12:xx" = ⟨0, 0, 0⟩ ∧
    (∀ s : String, parse_hhmm_core s = none →
      parse_hhmm_to_time s = ⟨0, 0, 0⟩) := by
  refine ⟨?_, rfl, by decide, by decide, by decide, ?_⟩
  · set_option maxRecDepth 4000 in decide
  · intro s h
    unfold parse_hhmm_to_time
    rw [h]
    rfl

/-- Witness for C3 at concrete inputs: `"08:05"` round-trips, and the
core failure on `"xx"` yields midnight. -/
theorem parse_hhmm_to_time_spec_witness :
    parse_hhmm_to_time (fmt2 8 ++ ":" ++ fmt2 5) = ⟨8, 5, 0⟩ ∧
    parse_hhmm_to_time "xx" = ⟨0, 0, 0⟩ :=
  ⟨parse_hhmm_to_time_spec.1 8 (by decide) 5 (by decide),
   parse_hhmm_to_time_spec.2.2.2.2.2 "xx" (by decide)⟩

example :
    (apply_type_guardrails [⟨"a", "12:00", "GENERAL", "샤워하기", [], [], ""⟩]).map
      Slot.type = ["ROUTINE"] := by decide

example :
    (apply_type_guardrails [⟨"a", "12:00", "COOKING", "점심 먹기", [], [], ""⟩]).map
      Slot.type = ["MEAL"] := by decide

/-! ## Claim C4 -/

theorem guardrailSlot_task (s : Slot) : (guardrailSlot s).task = s.task := by
  unfold guardrailSlot
  by_cases h1 : hasAnyKw routine_kw (pyStrip s.task) = true <;>
    by_cases h2 : (hasAnyKw hobby_kw (pyStrip s.task) &&
      !hasAnyKw exercise_override_kw (pyStrip s.task)) = true <;>
    by_cases h3 : hasAnyKw meal_kw (pyStrip s.task) = true <;>
    by_cases h4 : hasAnyKw cooking_intent_kw (pyStrip s.task) = true <;>
    by_cases h5 : pyStrip s.type = "COOKING" <;>
    simp [h1, h2, h3, h4, h5]

theorem guardrailSlot_idem (s : Slot) :
    guardrailSlot (guardrailSlot s) = guardrailSlot s := by
  by_cases h1 : hasAnyKw routine_kw (pyStrip s.task) = true
  · have hg : guardrailSlot s = { s with type := "ROUTINE" } := by
      unfold guardrailSlot
      simp [h1]
    rw [hg]
    unfold guardrailSlot
    simp [h1]
  · by_cases h2 : (hasAnyKw hobby_kw (pyStrip s.task) &&
        !hasAnyKw exercise_override_kw (pyStrip s.task)) = true
    · have hg : guardrailSlot s = { s with type := "HOBBY" } := by
        unfold guardrailSlot
        simp [h1, h2]
      rw [hg]
      unfold guardrailSlot
      simp [h1, h2]
    · by_cases h3 : hasAnyKw meal_kw (pyStrip s.task) = true
      · by_cases h4 : hasAnyKw cooking_intent_kw (pyStrip s.task) = true
        · have hg : guardrailSlot s = { s with type := "COOKING" } := by
            unfold guardrailSlot
            simp [h1, h2, h3, h4]
          rw [hg]
          unfold guardrailSlot
          simp [h1, h2, h3, h4]
        · have hg : guardrailSlot s = { s with type := "MEAL" } := by
            unfold guardrailSlot
            simp [h1, h2, h3, h4]
          rw [hg]
          unfold guardrailSlot
          simp [h1, h2, h3, h4]
      · by_cases h5 : pyStrip s.type = "COOKING"
        · by_cases h4 : hasAnyKw cooking_intent_kw (pyStrip s.task) = true
          · have hg : guardrailSlot s = s := by
              unfold guardrailSlot
              simp [h1, h2, h3, h5, h4]
            rw [hg, hg]
          · have hg : guardrailSlot s = { s with type := "MEAL" } := by
              unfold guardrailSlot
              simp [h1, h2, h3, h5, h4]
            rw [hg]
            unfold guardrailSlot
            have h6 : ¬ (pyStrip "MEAL" = "COOKING") := by decide
            simp [h1, h2, h3, h4, h6]
        · have hg : guardrailSlot s = s := by
            unfold guardrailSlot
            simp [h1, h2, h3, h5]
          rw [hg, hg]

/-- C4: the category-guardrail pass is idempotent — applying
`_apply_type_guardrails` twice yields the same slot list as applying it
once, for every input slot list. -/
theorem apply_type_guardrails_spec (schedule : List Slot) :
    apply_type_guardrails (apply_type_guardrails schedule) =
      apply_type_guardrails schedule := by
  unfold apply_type_guardrails
  rw [List.map_map]
  exact List.map_congr_left (fun s _ => guardrailSlot_idem s)

/-- Counterexample to C7 as stated: this task contains meal keywords
("저녁", "먹기") and no cooking-intent keyword, yet the guardrail sets
ROUTINE, not MEAL, because the routine rule ("샤워") fires first. -/
theorem guardrail_meal_rule_cex :
    hasAnyKw meal_kw (pyStrip c7Slot.task) = true ∧
    hasAnyKw cooking_intent_kw (pyStrip c7Slot.task) = false ∧
    (guardrailSlot c7Slot).type = "ROUTINE" ∧
    ¬ (guardrailSlot c7Slot).type = "MEAL" := by decide

/-- C7 (amended): PROVIDED neither the routine rule nor the hobby rule
fires on the task, a slot whose task contains a meal keyword is set to
COOKING when a cooking-intent keyword is also present and to MEAL
otherwise; and a slot already tagged COOKING whose task matches no meal
keyword and lacks cooking-intent keywords is demoted to MEAL. -/
theorem guardrail_meal_rule_amended (s : Slot)
    (hr : hasAnyKw routine_kw (pyStrip s.task) = false)
    (hh : (hasAnyKw hobby_kw (pyStrip s.task) &&
      !hasAnyKw exercise_override_kw (pyStrip s.task)) = false) :
    (hasAnyKw meal_kw (pyStrip s.task) = true →
      (guardrailSlot s).type =
        (if hasAnyKw cooking_intent_kw (pyStrip s.task) then "COOKING"
         else "MEAL")) ∧
    (hasAnyKw meal_kw (pyStrip s.task) = false →
      pyStrip s.type = "COOKING" →
      hasAnyKw cooking_intent_kw (pyStrip s.task) = false →
      (guardrailSlot s).type = "MEAL") := by
  constructor
  · intro hm
    unfold guardrailSlot
    by_cases h4 : hasAnyKw cooking_intent_kw (pyStrip s.task) = true <;>
      simp [hr, hh, hm, h4]
  · intro hm hc h4
    unfold guardrailSlot
    simp [hr, hh, hm, hc, h4]

/-- Witness for the amended C7 at a concrete slot. -/
theorem guardrail_meal_rule_amended_witness :
    (guardrailSlot w7Slot).type =
      (if hasAnyKw cooking_intent_kw (pyStrip w7Slot.task) then "COOKING"
       else "MEAL") :=
  (guardrail_meal_rule_amended w7Slot (by decide) (by decide)).1 (by decide)

example :
    extract_menu_names_from_task aiEmptyExtractor "라면 또는 카레 중 하나 먹기" =
      ["라면", "카레"] := by decide

/-- Counterexample to C8 as stated: after the guardrail pass the slot is
MEAL, and menu auto-attachment then skips it entirely (it only fires for
COOKING slots), so no `menus` entry `["라면", "카레"]` is attached. -/
theorem menu_attach_scenario_cex :
    (auto_attach_cooking_candidates aiEmptyExtractor
        (apply_type_guardrails [c8Slot])).map
        (fun s => (s.type, s.menus.map Menu.name)) = [("MEAL", [])] ∧
    ¬ (auto_attach_cooking_candidates aiEmptyExtractor
        (apply_type_guardrails [c8Slot])).map
        (fun s => s.menus.map Menu.name) = [["라면", "카레"]] := by decide

/-- C8 (amended): on this task the guardrail yields MEAL (no
cooking-intent keyword), the local fallback extraction does produce
`["라면", "카레"]`, but the auto-attachment pass leaves `menus` empty
because it only fires for COOKING slots. -/
theorem menu_attach_scenario_amended :
    (apply_type_guardrails [c8Slot]).map Slot.type = ["MEAL"] ∧
    extract_menu_names_from_task aiEmptyExtractor c8Slot.task = ["라면", "카레"] ∧
    (auto_attach_cooking_candidates aiEmptyExtractor
      (apply_type_guardrails [c8Slot])).map Slot.menus = [[]] := by decide

/-- Counterexample to C9 as stated: the task text reaches the display
verbatim (up to whitespace trimming) and still contains the internal
category token `[MEAL]` — no bracket-stripping transform exists in the
code. -/
theorem display_token_cex :
    displayed_task c9Slot = "밥 먹기 [MEAL]" ∧
    HasCatToken (displayed_task c9Slot) := by
  refine ⟨by decide,
    ⟨['밥', ' ', '먹', '기', ' '], ['M', 'E', 'A', 'L'], [], ?_, ?_, ?_⟩⟩
  · decide
  · decide
  · decide

theorem dropWhile_keeps_block (p : Char → Bool) :
    ∀ (a tok b : List Char), tok ≠ [] →
      (∀ c, tok.head? = some c → p c = false) →
      ∃ a2, (a ++ (tok ++ b)).dropWhile p = a2 ++ (tok ++ b) := by
  intro a
  induction a with
  | nil =>
    intro tok b hne hhd
    cases tok with
    | nil => exact absurd rfl hne
    | cons c cs =>
      refine ⟨[], ?_⟩
      simp only [List.nil_append, List.cons_append, List.dropWhile_cons]
      rw [hhd c rfl]
      simp
  | cons x a ih =>
    intro tok b hne hhd
    by_cases hx : p x = true
    · rcases ih tok b hne hhd with ⟨a2, h2⟩
      refine ⟨a2, ?_⟩
      rw [List.cons_append, List.dropWhile_cons, if_pos hx]
      exact h2
    · refine ⟨x :: a, ?_⟩
      rw [List.cons_append, List.dropWhile_cons, if_neg hx]

theorem pyStripL_keeps_block (a tok b : List Char) (hne : tok ≠ [])
    (hhd : ∀ c, tok.head? = some c → wsChar c = false)
    (hlast : ∀ c, tok.getLast? = some c → wsChar c = false) :
    ∃ a2 b2, pyStripL (a ++ (tok ++ b)) = a2 ++ (tok ++ b2) := by
  unfold pyStripL
  rcases dropWhile_keeps_block wsChar a tok b hne hhd with ⟨a2, h1⟩
  rw [h1]
  have hrev : (a2 ++ (tok ++ b)).reverse =
      b.reverse ++ (tok.reverse ++ a2.reverse) := by
    simp
  rw [hrev]
  have hne2 : tok.reverse ≠ [] := by
    simpa using hne
  have hhd2 : ∀ c, tok.reverse.head? = some c → wsChar c = false := by
    intro c hc
    rw [List.head?_reverse] at hc
    exact hlast c hc
  rcases dropWhile_keeps_block wsChar b.reverse tok.reverse a2.reverse
    hne2 hhd2 with ⟨c2, h2⟩
  rw [h2]
  refine ⟨a2, c2.reverse, ?_⟩
  simp

/-- C9 (amended): the only transform applied to a task before it is
shown is a whitespace trim; it does NOT strip bracketed category tokens
— any internal category token present in `task` is still present in the
displayed text. -/
theorem displayed_task_amended (slot : Slot) (h : HasCatToken slot.task) :
    HasCatToken (displayed_task slot) := by
  rcases h with ⟨a, us, b, hne, hall, heq⟩
  have heq2 : slot.task.toList = a ++ (('[' :: (us ++ [']'])) ++ b) := by
    rw [heq]
    simp
  have htokne : ('[' :: (us ++ [']'])) ≠ [] := by simp
  have hhd : ∀ c, ('[' :: (us ++ [']'])).head? = some c → wsChar c = false := by
    intro c hc
    simp only [List.head?_cons, Option.some.injEq] at hc
    subst hc
    decide
  have hlast : ∀ c, ('[' :: (us ++ [']'])).getLast? = some c →
      wsChar c = false := by
    intro c hc
    have h2 : ('[' :: (us ++ [']'])).getLast? = some ']' := by
      have h3 : ('[' :: (us ++ [']'])) = ('[' :: us) ++ [']'] := by simp
      rw [h3, List.getLast?_concat]
    rw [h2, Option.some.injEq] at hc
    subst hc
    decide
  rcases pyStripL_keeps_block a ('[' :: (us ++ [']'])) b htokne hhd hlast
    with ⟨a2, b2, hstr⟩
  refine ⟨a2, us, b2, hne, hall, ?_⟩
  show (String.mk (pyStripL slot.task.toList)).toList = _
  rw [show (String.mk (pyStripL slot.task.toList)).toList =
      pyStripL slot.task.toList from rfl]
  rw [heq2, hstr]
  simp

/-- Witness for the amended C9 at a concrete slot: the `[COOK_1]` token
survives the display transform. -/
theorem displayed_task_amended_witness : HasCatToken (displayed_task w9Slot) :=
  displayed_task_amended w9Slot
    ⟨[' ', ' '], ['C', 'O', 'O', 'K', '_', '1'], [' ', '요', '리', ' ', ' '],
      by decide, by decide, by decide⟩

/-! ### Exhaustive case analysis of one tick -/

theorem pre_notice_cases (inp : TickInput) (st : NarrState) :
    (pre_notice_branch inp st = ([], st)) ∨
    (∃ n, inp.next_item = some n ∧
      st.last_pre_notice_slot_key ≠ make_slot_key inp.date_str n ∧
      pre_notice_branch inp st =
        ([NarrEvent.preNotice (make_slot_key inp.date_str n)],
          { st with last_pre_notice_slot_key :=
              make_slot_key inp.date_str n })) := by
  unfold pre_notice_branch
  split
  · exact Or.inl rfl
  · rename_i n hn
    split
    · exact Or.inl rfl
    · split
      · rename_i h5
        exact Or.inr ⟨n, hn, h5.2.2, rfl⟩
      · exact Or.inl rfl

theorem auto_tts_cases (inp : TickInput) (st : NarrState) :
    (auto_tts_logic inp st = ([], st)) ∨
    (st.greeting_tts_done = false ∧
      auto_tts_logic inp st =
        ([NarrEvent.greeting], { st with greeting_tts_done := true })) ∨
    (∃ a, inp.active = some a ∧ st.greeting_tts_done = true ∧
      st.full_narrated_slot_key ≠ make_slot_key inp.date_str a ∧
      auto_tts_logic inp st =
        ([NarrEvent.slotIntro (make_slot_key inp.date_str a)],
          { st with full_narrated_slot_key := make_slot_key inp.date_str a,
                    last_tts_slot_key := make_slot_key inp.date_str a })) ∨
    (∃ n, inp.next_item = some n ∧ st.greeting_tts_done = true ∧
      st.last_pre_notice_slot_key ≠ make_slot_key inp.date_str n ∧
      auto_tts_logic inp st =
        ([NarrEvent.preNotice (make_slot_key inp.date_str n)],
          { st with last_pre_notice_slot_key :=
              make_slot_key inp.date_str n })) := by
  unfold auto_tts_logic
  split
  · exact Or.inl rfl
  · split
    · exact Or.inl rfl
    · split
      · exact Or.inl rfl
      · split
        · rename_i h3
          exact Or.inr (Or.inl ⟨h3, rfl⟩)
        · rename_i h3
          have h3t : st.greeting_tts_done = true := by
            cases hgd : st.greeting_tts_done
            · exact absurd hgd h3
            · rfl
          split
          · rename_i a hact
            split
            · rename_i h4
              exact Or.inr (Or.inr (Or.inl ⟨a, hact, h3t, h4, rfl⟩))
            · rcases pre_notice_cases inp st with hp | ⟨n, hn, hne, hp⟩
              · exact Or.inl hp
              · exact Or.inr (Or.inr (Or.inr ⟨n, hn, h3t, hne, hp⟩))
          · rcases pre_notice_cases inp st with hp | ⟨n, hn, hne, hp⟩
            · exact Or.inl hp
            · exact Or.inr (Or.inr (Or.inr ⟨n, hn, h3t, hne, hp⟩))

/-! ### Multi-tick behaviour -/

theorem auto_tts_run_only_pre :
    ∀ (inps : List TickInput) (st : NarrState) (k : String),
      st.greeting_tts_done = true → st.full_narrated_slot_key = k →
      (∀ i ∈ inps, ∀ a, i.active = some a → make_slot_key i.date_str a = k) →
      ∀ e ∈ (auto_tts_run inps st).1, isPreNoticeEv e = true := by
  intro inps
  induction inps with
  | nil =>
    intro st k hg hf hak e he
    simp [auto_tts_run] at he
  | cons i rest ih =>
    intro st k hg hf hak e he
    have hrun : (auto_tts_run (i :: rest) st).1 =
        (auto_tts_logic i st).1 ++
          (auto_tts_run rest (auto_tts_logic i st).2).1 := rfl
    rw [hrun] at he
    rcases auto_tts_cases i st with hc | ⟨hgf, hc⟩ |
        ⟨a, hact, _, h4, hc⟩ | ⟨n, hn, _, hne, hc⟩
    · rw [hc] at he
      simp only [List.nil_append] at he
      exact ih st k hg hf
        (fun j hj a ha => hak j (List.mem_cons_of_mem i hj) a ha) e he
    · rw [hg] at hgf
      exact Bool.noConfusion hgf
    · exact absurd (hf.trans (hak i (List.mem_cons_self i rest) a hact).symm) h4
    · rw [hc] at he
      simp only [List.cons_append, List.nil_append, List.mem_cons] at he
      rcases he with rfl | he
      · rfl
      · exact ih { st with
            last_pre_notice_slot_key := make_slot_key i.date_str n } k hg hf
          (fun j hj a ha => hak j (List.mem_cons_of_mem i hj) a ha) e he

theorem auto_tts_run_pre_zero :
    ∀ (inps : List TickInput) (st : NarrState) (nk : String),
      (∀ i ∈ inps, ∀ n, i.next_item = some n →
        make_slot_key i.date_str n = nk) →
      st.last_pre_notice_slot_key = nk →
      (auto_tts_run inps st).1.countP isPreNoticeEv = 0 := by
  intro inps
  induction inps with
  | nil =>
    intro st nk _ _
    simp [auto_tts_run]
  | cons i rest ih =>
    intro st nk hnk hst
    have htail : ∀ j ∈ rest, ∀ n, j.next_item = some n →
        make_slot_key j.date_str n = nk :=
      fun j hj n hn2 => hnk j (List.mem_cons_of_mem i hj) n hn2
    have hrun : (auto_tts_run (i :: rest) st).1 =
        (auto_tts_logic i st).1 ++
          (auto_tts_run rest (auto_tts_logic i st).2).1 := rfl
    rw [hrun, List.countP_append]
    rcases auto_tts_cases i st with hc | ⟨hgf, hc⟩ |
        ⟨a, hact, _, h4, hc⟩ | ⟨n, hn, _, hne, hc⟩
    · rw [hc]
      simpa using ih st nk htail hst
    · rw [hc]
      simpa [isPreNoticeEv] using
        ih { st with greeting_tts_done := true } nk htail hst
    · rw [hc]
      have hih := ih { st with
          full_narrated_slot_key := make_slot_key i.date_str a,
          last_tts_slot_key := make_slot_key i.date_str a } nk htail hst
      simpa [isPreNoticeEv] using hih
    · exact absurd (hst.trans (hnk i (List.mem_cons_self i rest) n hn).symm) hne

theorem auto_tts_run_pre_once :
    ∀ (inps : List TickInput) (st : NarrState) (nk : String),
      (∀ i ∈ inps, ∀ n, i.next_item = some n →
        make_slot_key i.date_str n = nk) →
      (auto_tts_run inps st).1.countP isPreNoticeEv ≤ 1 := by
  intro inps
  induction inps with
  | nil =>
    intro st nk _
    simp [auto_tts_run]
  | cons i rest ih =>
    intro st nk hnk
    have htail : ∀ j ∈ rest, ∀ n, j.next_item = some n →
        make_slot_key j.date_str n = nk :=
      fun j hj n hn2 => hnk j (List.mem_cons_of_mem i hj) n hn2
    have hrun : (auto_tts_run (i :: rest) st).1 =
        (auto_tts_logic i st).1 ++
          (auto_tts_run rest (auto_tts_logic i st).2).1 := rfl
    rw [hrun, List.countP_append]
    rcases auto_tts_cases i st with hc | ⟨hgf, hc⟩ |
        ⟨a, hact, _, h4, hc⟩ | ⟨n, hn, _, hne, hc⟩
    · rw [hc]
      simpa using ih st nk htail
    · rw [hc]
      simpa [isPreNoticeEv] using
        ih { st with greeting_tts_done := true } nk htail
    · rw [hc]
      have hih := ih { st with
          full_narrated_slot_key := make_slot_key i.date_str a,
          last_tts_slot_key := make_slot_key i.date_str a } nk htail
      simpa [isPreNoticeEv] using hih
    · rw [hc]
      have hkey := hnk i (List.mem_cons_self i rest) n hn
      have h0 := auto_tts_run_pre_zero rest { st with
          last_pre_notice_slot_key := make_slot_key i.date_str n } nk htail hkey
      simpa [isPreNoticeEv] using Nat.le_of_eq h0

theorem auto_tts_run_greeting_zero :
    ∀ (inps : List TickInput) (st : NarrState),
      st.greeting_tts_done = true →
      (auto_tts_run inps st).1.countP isGreetingEv = 0 := by
  intro inps
  induction inps with
  | nil =>
    intro st _
    simp [auto_tts_run]
  | cons i rest ih =>
    intro st hst
    have hrun : (auto_tts_run (i :: rest) st).1 =
        (auto_tts_logic i st).1 ++
          (auto_tts_run rest (auto_tts_logic i st).2).1 := rfl
    rw [hrun, List.countP_append]
    rcases auto_tts_cases i st with hc | ⟨hgf, hc⟩ |
        ⟨a, hact, _, h4, hc⟩ | ⟨n, hn, _, hne, hc⟩
    · rw [hc]
      simpa using ih st hst
    · rw [hst] at hgf
      exact Bool.noConfusion hgf
    · rw [hc]
      have hih := ih { st with
          full_narrated_slot_key := make_slot_key i.date_str a,
          last_tts_slot_key := make_slot_key i.date_str a } hst
      simpa [isGreetingEv] using hih
    · rw [hc]
      have hih := ih { st with
          last_pre_notice_slot_key := make_slot_key i.date_str n } hst
      simpa [isGreetingEv] using hih

theorem auto_tts_run_greeting_once :
    ∀ (inps : List TickInput) (st : NarrState),
      (auto_tts_run inps st).1.countP isGreetingEv ≤ 1 := by
  intro inps
  induction inps with
  | nil =>
    intro st
    simp [auto_tts_run]
  | cons i rest ih =>
    intro st
    have hrun : (auto_tts_run (i :: rest) st).1 =
        (auto_tts_logic i st).1 ++
          (auto_tts_run rest (auto_tts_logic i st).2).1 := rfl
    rw [hrun, List.countP_append]
    rcases auto_tts_cases i st with hc | ⟨hgf, hc⟩ |
        ⟨a, hact, _, h4, hc⟩ | ⟨n, hn, _, hne, hc⟩
    · rw [hc]
      simpa using ih st
    · rw [hc]
      have h0 := auto_tts_run_greeting_zero rest
        { st with greeting_tts_done := true } rfl
      simpa [isGreetingEv] using Nat.le_of_eq h0
    · rw [hc]
      have hih := ih { st with
          full_narrated_slot_key := make_slot_key i.date_str a,
          last_tts_slot_key := make_slot_key i.date_str a }
      simpa [isGreetingEv] using hih
    · rw [hc]
      have hih := ih { st with
          last_pre_notice_slot_key := make_slot_key i.date_str n }
      simpa [isGreetingEv] using hih

/-- Counterexample to C5 as stated: with a fixed active slot whose key
never changes, the second tick narrates it (slot introduction), yet the
third tick still produces a narration event — the pre-notice for the
upcoming slot inside the five-minute window. -/
theorem narration_tick_cex :
    (auto_tts_logic exTick (auto_tts_logic exTick initNarrState).2).1 =
      [NarrEvent.slotIntro (make_slot_key "2026-01-02" exActive)] ∧
    (auto_tts_logic exTick
        (auto_tts_logic exTick
          (auto_tts_logic exTick initNarrState).2).2).1 =
      [NarrEvent.preNotice (make_slot_key "2026-01-02" exNext)] := by decide

/-- C5 (amended): every tick produces at most one narration event; once
a state has narrated the fixed active slot (greeting done, its key
recorded), a run of ticks whose active slot keeps that key produces no
further greeting or slot-introduction events — only pre-notice events
can occur, and a run whose next-slot key is fixed produces at most one
pre-notice in total. -/
theorem narration_tick_amended :
    (∀ (inp : TickInput) (st : NarrState),
      (auto_tts_logic inp st).1.length ≤ 1) ∧
    (∀ (inps : List TickInput) (st : NarrState) (k : String),
      st.greeting_tts_done = true → st.full_narrated_slot_key = k →
      (∀ i ∈ inps, ∀ a, i.active = some a → make_slot_key i.date_str a = k) →
      ∀ e ∈ (auto_tts_run inps st).1, isPreNoticeEv e = true) ∧
    (∀ (inps : List TickInput) (st : NarrState) (nk : String),
      (∀ i ∈ inps, ∀ n, i.next_item = some n →
        make_slot_key i.date_str n = nk) →
      (auto_tts_run inps st).1.countP isPreNoticeEv ≤ 1) := by
  refine ⟨?_, auto_tts_run_only_pre, auto_tts_run_pre_once⟩
  intro inp st
  rcases auto_tts_cases inp st with hc | ⟨_, hc⟩ |
      ⟨a, _, _, _, hc⟩ | ⟨n, _, _, _, hc⟩ <;> rw [hc] <;> simp

/-- Witness for the amended C5: from a state that already narrated the
active slot, a further tick with the same active key yields only
pre-notice events. -/
theorem narration_tick_amended_witness :
    ∀ e ∈ (auto_tts_run [exTick] wNarrState).1, isPreNoticeEv e = true :=
  narration_tick_amended.2.1 [exTick] wNarrState
    (make_slot_key "2026-01-02" exActive) (by decide) (by decide)
    (by
      intro i hi a ha
      rw [List.mem_singleton] at hi
      subst hi
      have ha2 : some exActive = some a := ha
      injection ha2 with h2
      subst h2
      rfl)

/-- Counterexample to C6 as stated: after the greeting fired for
2026-01-02, a tick whose loaded document has the new date 2026-01-03
produces no fresh greeting and the session state is not reset — it is
completely unchanged (the code never compares against a last-seen
date). -/
theorem greeting_reset_cex :
    (auto_tts_logic exTickD1 initNarrState).1 = [NarrEvent.greeting] ∧
    (auto_tts_logic exTickD2 (auto_tts_logic exTickD1 initNarrState).2).1 =
      [] ∧
    (auto_tts_logic exTickD2 (auto_tts_logic exTickD1 initNarrState).2).2 =
      (auto_tts_logic exTickD1 initNarrState).2 := by decide

/-- C6 (amended): the narration session state is never reset on a date
change; the greeting fires at most once per session (over any run from
the initial session state), and once `greeting_tts_done` is set, no tick
— whatever the schedule date — produces another greeting or clears the
flag. -/
theorem greeting_once_amended :
    (∀ inps : List TickInput,
      (auto_tts_run inps initNarrState).1.countP isGreetingEv ≤ 1) ∧
    (∀ (inp : TickInput) (st : NarrState), st.greeting_tts_done = true →
      (auto_tts_logic inp st).1.countP isGreetingEv = 0 ∧
      (auto_tts_logic inp st).2.greeting_tts_done = true) := by
  refine ⟨fun inps => auto_tts_run_greeting_once inps initNarrState, ?_⟩
  intro inp st hg
  rcases auto_tts_cases inp st with hc | ⟨hgf, hc⟩ |
      ⟨a, _, _, _, hc⟩ | ⟨n, _, _, _, hc⟩
  · rw [hc]
    exact ⟨rfl, hg⟩
  · rw [hg] at hgf
    exact Bool.noConfusion hgf
  · rw [hc]
    refine ⟨by simp [isGreetingEv], hg⟩
  · rw [hc]
    refine ⟨by simp [isGreetingEv], hg⟩

/-- Witness for the amended C6: with the greeting already done, a tick
on a later date produces no greeting and keeps the flag set. -/
theorem greeting_once_amended_witness :
    (auto_tts_logic exTickD2 wStateG).1.countP isGreetingEv = 0 ∧
    (auto_tts_logic exTickD2 wStateG).2.greeting_tts_done = true :=
  greeting_once_amended.2 exTickD2 wStateG (by decide)

/-! ## Claim C10 -/

/-- C10: the narration identity key depends only on the schedule date
and the slot's `time`, `type` and `task` fields — two slots agreeing on
those map to the same key — and on a tick whose active slot's key equals
the already-narrated key, no greeting or slot-introduction narration is
produced and the recorded key and greeting flag are unchanged (so
editing `guide_script`, `menus` or any other field of the active slot,
or a transition between equal-key slots, never retriggers its
narration). -/
theorem slot_key_spec :
    (∀ (d : String) (s1 s2 : Slot), s1.time = s2.time → s1.type = s2.type →
      s1.task = s2.task → make_slot_key d s1 = make_slot_key d s2) ∧
    (∀ (inp : TickInput) (st : NarrState) (a : Slot),
      inp.active = some a → st.greeting_tts_done = true →
      st.full_narrated_slot_key = make_slot_key inp.date_str a →
      (auto_tts_logic inp st).1.countP
          (fun e => isGreetingEv e || isSlotIntroEv e) = 0 ∧
      (auto_tts_logic inp st).2.full_narrated_slot_key =
        st.full_narrated_slot_key ∧
      (auto_tts_logic inp st).2.greeting_tts_done = true) := by
  constructor
  · intro d s1 s2 h1 h2 h3
    unfold make_slot_key
    rw [h1, h2, h3]
  · intro inp st a hact hg hf
    rcases auto_tts_cases inp st with hc | ⟨hgf, hc⟩ |
        ⟨a2, hact2, _, h4, hc⟩ | ⟨n, _, _, _, hc⟩
    · rw [hc]
      exact ⟨rfl, rfl, hg⟩
    · rw [hg] at hgf
      exact Bool.noConfusion hgf
    · rw [hact] at hact2
      injection hact2 with h2
      subst h2
      exact absurd hf h4
    · rw [hc]
      refine ⟨by simp [isGreetingEv, isSlotIntroEv], rfl, hg⟩

/-- Witness for C10: a tick whose active slot key matches the recorded
key produces no greeting/slot-introduction event and leaves the key and
flag unchanged. -/
theorem slot_key_spec_witness :
    (auto_tts_logic exTick wNarrState).1.countP
        (fun e => isGreetingEv e || isSlotIntroEv e) = 0 ∧
    (auto_tts_logic exTick wNarrState).2.full_narrated_slot_key =
      wNarrState.full_narrated_slot_key ∧
    (auto_tts_logic exTick wNarrState).2.greeting_tts_done = true :=
  slot_key_spec.2 exTick wNarrState exActive (by decide) (by decide)
    (by decide)
